import Mathlib

/-!
# Verification of the go-shell process lifecycle controller

Shallow embedding of the `Process` controller from `matthewmueller/go-shell`
(files `command.go` and the process controller file, package `shell`).

The Go code coordinates a single launched OS child process through:
* a capacity-one exit channel `exitCh` written exactly once by a background
  reaper goroutine (`go p.wait()` spawned by `Cmd.Start`);
* a `sync.Once`-based idempotency guard (`onceError`) shared by `Stop` and
  `Kill`;
* `Stop(ctx)` (interrupt, escalate to kill, race exit against ctx),
  `Kill()`, `Wait(ctx)` and `Restart(ctx)`.

Modelling choices:
* Go `error` values become `Option GoError`; `GoError` carries the message
  string (compared by `isInterrupt` / `isKilled` exactly as the Go code
  compares `err.Error()`) and a flag for `errors.Is(err, os.ErrProcessDone)`.
* The buffered channel is a `Chan`: a buffer list (capacity one in all
  reachable states) plus a closed flag.  Receiving from a closed empty
  channel yields the zero value `none`, as in Go.
* The background reaper's single future deposit is the `pending` field of
  `Proc`: `some v` means the reaper has not yet sent `v` into the channel.
  A blocking receive on an empty open channel with a pending deposit models
  the receive that completes once the reaper delivers.
* OS-dependent results (signal-send errors, `cmd.Wait()`'s exit result) and
  `select` race outcomes (`ctx.Done()` firing before the exit channel) are
  supplied by oracle structures, one per invocation.
* Each exported operation is an atomic step of a trace semantics (`Op`,
  `runOps`).  This is faithful for the properties proved here because the
  `sync.Once` guard serializes the only state-mutating bodies (`stop`/`kill`)
  and the channel has a single producer; `Exec.blocked` marks an invocation
  that can never return, `Exec.panicked` a Go runtime panic (send on closed
  channel or double close).
-/

/-- A non-nil Go `error` value: its `Error()` message and whether
`errors.Is(err, os.ErrProcessDone)` holds. -/
structure GoError where
  msg : String
  isErrProcessDone : Bool
deriving DecidableEq, Repr

/-- `isProcessDone` from the source: `errors.Is(err, os.ErrProcessDone)`
(false on a nil error). -/
def isProcessDone : Option GoError → Bool
  | some e => e.isErrProcessDone
  | none => false

/-- `isInterrupt` from the source: `err != nil && err.Error() == "signal: interrupt"`. -/
def isInterrupt : Option GoError → Bool
  | some e => e.msg == "signal: interrupt"
  | none => false

/-- `isKilled` from the source: `err != nil && err.Error() == "signal: killed"`. -/
def isKilled : Option GoError → Bool
  | some e => e.msg == "signal: killed"
  | none => false

/-- The command descriptor: the fields of `exec.Cmd` that the controller
reads (`Path`, `Args`, `Env`, `Stdout`, `Stderr`, `Stdin`, `ExtraFiles`,
`Dir`).  Stream handles are opaque and modelled as `Option Nat`
(`none` = Go `nil`). -/
structure Cmd where
  path : String
  args : List String
  env : List String
  stdout : Option Nat
  stderr : Option Nat
  stdin : Option Nat
  extraFiles : List Nat
  dir : String
deriving DecidableEq, Repr

/-- `exec.Command(name, arg...)`: sets `Path` to the name and
`Args` to the name followed by the arguments; every other field that the
controller later reads starts at its zero value. -/
def execCommand (name : String) (args : List String) : Cmd :=
  { path := name, args := name :: args, env := [], stdout := none,
    stderr := none, stdin := none, extraFiles := [], dir := "" }

/-- A Go buffered channel of `error` values: buffered contents plus the
closed flag. -/
structure Chan where
  buf : List (Option GoError)
  closed : Bool
deriving DecidableEq, Repr

/-- The controller state: the `Process` struct of the source plus the state
of its collaborators.  `hasProcess` is `cmd.Process != nil`; `pending` is
the deposit the background reaper goroutine has not yet delivered into
`exitCh`; `onceDone`/`onceErr` are the `onceError` guard. -/
structure Proc where
  cmd : Cmd
  hasProcess : Bool
  exitCh : Chan
  pending : Option (Option GoError)
  onceDone : Bool
  onceErr : Option GoError
deriving DecidableEq, Repr

/-- Outcome of running one Go operation to completion: a returned value, a
block that can never be released, or a runtime panic. -/
inductive Exec (α : Type) where
  | ok (a : α)
  | blocked
  | panicked
deriving DecidableEq, Repr

/-- A receive `<-p.exitCh`: take a buffered value; a closed empty channel
yields the zero value `none`; an empty open channel completes only via the
reaper's pending deposit, otherwise the receive blocks forever (`none`
result). -/
def recvExit (p : Proc) : Option (Option GoError × Proc) :=
  match p.exitCh.buf with
  | v :: rest => some (v, { p with exitCh := { p.exitCh with buf := rest } })
  | [] =>
    if p.exitCh.closed then some (none, p)
    else
      match p.pending with
      | some v => some (v, { p with pending := none })
      | none => none

/-- `close(p.exitCh)`: `none` models the Go panic on double close. -/
def closeExit (p : Proc) : Option Proc :=
  if p.exitCh.closed then none
  else some { p with exitCh := { p.exitCh with closed := true } }

/-- The reaper goroutine's deposit `p.exitCh <- p.cmd.exec().Wait()`:
sending on a closed channel panics; a full buffer would block the sender. -/
def reaperDeposit (p : Proc) : Exec Proc :=
  match p.pending with
  | none => .ok p
  | some v =>
    if p.exitCh.closed then .panicked
    else if p.exitCh.buf.length ≥ 1 then .blocked
    else .ok { p with exitCh := { p.exitCh with buf := [v] }, pending := none }

/-- Oracle for one `kill` invocation: the result of `sp.Kill()`. -/
structure KillOracle where
  killErr : Option GoError
deriving DecidableEq, Repr

/-- Oracle for one `stop` invocation: the results of `sp.Signal(os.Interrupt)`
and of the escalation `sp.Signal(os.Kill)`, whether the `ctx.Done()` arm of
the select fires before the exit channel is ready, and the oracle for the
fallback `kill`. -/
structure StopOracle where
  interruptErr : Option GoError
  killSignalErr : Option GoError
  ctxFirst : Bool
  killO : KillOracle
deriving DecidableEq, Repr

/-- Oracle for one `Wait` invocation: whether `ctx.Done()` fires before the
exit channel is ready, and the oracle for the `Kill` it then performs. -/
structure WaitOracle where
  ctxFirst : Bool
  killO : KillOracle
deriving DecidableEq, Repr

/-- The classification both `stop` and `kill` apply to the received exit
error: `if err != nil && !expectError(err) { return err }; return nil`. -/
def exitVerdict (expect : Option GoError → Bool) (err : Option GoError) :
    Option GoError :=
  if err.isSome && !(expect err) then err else none

namespace Process

/-- The private `kill` method: send `sp.Kill()`; a process-done error is
success; otherwise block on the exit channel, close it, and suppress the
`"signal: killed"` exit error. -/
def kill (o : KillOracle) (p : Proc) : Exec (Option GoError × Proc) :=
  if p.hasProcess = false then .ok (none, p)
  else
    match o.killErr with
    | some e =>
      if isProcessDone (some e) then .ok (none, p)
      else .ok (some e, p)
    | none =>
      match recvExit p with
      | none => .blocked
      | some (err, p1) =>
        match closeExit p1 with
        | none => .panicked
        | some p2 => .ok (exitVerdict isKilled err, p2)

/-- The tail of the private `stop` method after the signalling phase: the
select racing `<-p.exitCh` against `<-ctx.Done()`, with `expect` the
`expectError` classifier recorded for the signal that was sent. -/
def stopWait (expect : Option GoError → Bool) (o : StopOracle) (p : Proc) :
    Exec (Option GoError × Proc) :=
  if o.ctxFirst then kill o.killO p
  else
    match recvExit p with
    | none => .blocked
    | some (err, p1) =>
      match closeExit p1 with
      | none => .panicked
      | some p2 => .ok (exitVerdict expect err, p2)

/-- The private `stop` method: nil process handle succeeds trivially;
send the interrupt signal, treating a process-done failure as success and
escalating any other failure to the kill signal (whose send failure is
returned); then race the exit channel against the context. -/
def stop (o : StopOracle) (p : Proc) : Exec (Option GoError × Proc) :=
  if p.hasProcess = false then .ok (none, p)
  else
    match o.interruptErr with
    | some e =>
      if isProcessDone (some e) then .ok (none, p)
      else
        match o.killSignalErr with
        | some e2 => .ok (some e2, p)
        | none => stopWait isKilled o p
    | none => stopWait isInterrupt o p

end Process

/-- `onceError.Do`: run the body at most once and cache its result; later
calls return the cached result without running anything. -/
def onceDo (body : Proc → Exec (Option GoError × Proc)) (p : Proc) :
    Exec (Option GoError × Proc) :=
  if p.onceDone then .ok (p.onceErr, p)
  else
    match body p with
    | .ok (e, p1) => .ok (e, { p1 with onceDone := true, onceErr := e })
    | .blocked => .blocked
    | .panicked => .panicked

namespace Process

/-- Exported `Stop(ctx)`: the `stop` body under the shared once guard. -/
def Stop (o : StopOracle) (p : Proc) : Exec (Option GoError × Proc) :=
  onceDo (stop o) p

/-- Exported `Kill()`: the `kill` body under the shared once guard. -/
def Kill (o : KillOracle) (p : Proc) : Exec (Option GoError × Proc) :=
  onceDo (kill o) p

/-- Exported `Wait(ctx)`: select between `ctx.Done()` (then return
`p.Kill()`) and a receive on the exit channel (then return the received
error). -/
def Wait (o : WaitOracle) (p : Proc) : Exec (Option GoError × Proc) :=
  if o.ctxFirst then Kill o.killO p
  else
    match recvExit p with
    | none => .blocked
    | some (err, p1) => .ok (err, p1)

end Process

/-- Oracle for one `Cmd.Start`: the result of the OS launch and the exit
result the background reaper's `cmd.Wait()` will eventually report. -/
structure StartOracle where
  startErr : Option GoError
  exitResult : Option GoError
deriving DecidableEq, Repr

/-- `newProcess(cmd)`: a fresh controller with an empty capacity-one exit
channel and an unused guard. -/
def newProcess (c : Cmd) : Proc :=
  { cmd := c, hasProcess := false,
    exitCh := { buf := [], closed := false },
    pending := none, onceDone := false, onceErr := none }

namespace Cmd

/-- `Cmd.Start`: on launch failure return the error and no controller and
spawn nothing; on success return a fresh controller and spawn exactly one
reaper goroutine (the second component counts spawned background tasks),
whose future deposit is the `pending` field. -/
def Start (o : StartOracle) (c : Cmd) : (Except GoError Proc) × Nat :=
  match o.startErr with
  | some e => (.error e, 0)
  | none =>
    (.ok { newProcess c with hasProcess := true, pending := some o.exitResult }, 1)

end Cmd

namespace Process

/-- `Restart(ctx)`: `Stop` first, propagating its failure without launching;
on success rebuild the command via `exec.Command(p.cmd.Path, p.cmd.Args[1:]...)`,
copy `Env`, `Stdout`, `Stderr`, `Stdin`, `ExtraFiles`, `Dir`, and `Start` it.
The result carries the new controller or the error, the old controller's
final state, and the number of background tasks spawned. -/
def Restart (o : StopOracle) (so : StartOracle) (p : Proc) :
    Exec ((Option Proc × Option GoError) × Proc × Nat) :=
  match Stop o p with
  | .blocked => .blocked
  | .panicked => .panicked
  | .ok (some e, p1) => .ok ((none, some e), p1, 0)
  | .ok (none, p1) =>
    let next : Cmd :=
      { execCommand p1.cmd.path (p1.cmd.args.drop 1) with
        env := p1.cmd.env, stdout := p1.cmd.stdout, stderr := p1.cmd.stderr,
        stdin := p1.cmd.stdin, extraFiles := p1.cmd.extraFiles,
        dir := p1.cmd.dir }
    match Cmd.Start so next with
    | (.error e, n) => .ok ((none, some e), p1, n)
    | (.ok q, n) => .ok ((some q, none), p1, n)

end Process

/-- One atomic caller operation on a controller, with its oracle. -/
inductive Op where
  | stop (o : StopOracle)
  | kill (o : KillOracle)
  | wait (o : WaitOracle)
  | deposit
deriving DecidableEq, Repr

/-- Run one operation. -/
def runOp : Op → Proc → Exec (Option GoError × Proc)
  | .stop o, p => Process.Stop o p
  | .kill o, p => Process.Kill o p
  | .wait o, p => Process.Wait o p
  | .deposit, p =>
    match reaperDeposit p with
    | .ok p1 => .ok (none, p1)
    | .blocked => .blocked
    | .panicked => .panicked

/-- Run a sequence of operations; a blocked or panicked operation ends the
trace (a blocked `stop`/`kill` body holds the once guard and the channel
can make no further progress, so nothing observable happens afterwards). -/
def runOps : List Op → Proc → Exec Proc
  | [], p => .ok p
  | op :: rest, p =>
    match runOp op p with
    | .ok (_, p1) => runOps rest p1
    | .blocked => .blocked
    | .panicked => .panicked

/-! ## Basic lemmas about the channel primitives -/

/-- A successful receive leaves every non-channel field and the closed flag
unchanged. -/
theorem recvExit_fields (p : Proc) (v : Option GoError) (p1 : Proc)
    (h : recvExit p = some (v, p1)) :
    p1.onceDone = p.onceDone ∧ p1.onceErr = p.onceErr ∧
    p1.hasProcess = p.hasProcess ∧ p1.cmd = p.cmd ∧
    p1.exitCh.closed = p.exitCh.closed := by
  unfold recvExit at h
  split at h
  · simp only [Option.some.injEq, Prod.mk.injEq] at h
    obtain ⟨h1, rfl⟩ := h
    simp
  · split at h
    · simp only [Option.some.injEq, Prod.mk.injEq] at h
      obtain ⟨h1, rfl⟩ := h
      simp_all
    · split at h
      · simp only [Option.some.injEq, Prod.mk.injEq] at h
        obtain ⟨h1, rfl⟩ := h
        simp
      · simp at h

/-- Closing an open channel succeeds and only sets the closed flag. -/
theorem closeExit_open (p : Proc) (h : p.exitCh.closed = false) :
    closeExit p = some { p with exitCh := { p.exitCh with closed := true } } := by
  simp [closeExit, h]

/-! ## Concrete fixtures for witnesses -/

/-- The error returned by signalling an already-reaped process
(`os.ErrProcessDone`). -/
def errDone : GoError := { msg := "os: process already finished", isErrProcessDone := true }

/-- The exit error of a process terminated by the interrupt signal. -/
def errInt : GoError := { msg := "signal: interrupt", isErrProcessDone := false }

/-- The exit error of a process terminated by the kill signal. -/
def errKill : GoError := { msg := "signal: killed", isErrProcessDone := false }

/-- The exit error of a process that exited with a non-zero status. -/
def errExit7 : GoError := { msg := "exit status 7", isErrProcessDone := false }

/-- A signal-send failure that is not a process-done error. -/
def errPerm : GoError := { msg := "operation not permitted", isErrProcessDone := false }

/-- A sample command descriptor. -/
def cmd0 : Cmd := execCommand "sh" ["-c", "exit 0"]

/-- A freshly started controller for `cmd0` whose process will exit
cleanly: the state `Cmd.Start` returns on success. -/
def proc0 : Proc :=
  { newProcess cmd0 with hasProcess := true, pending := some none }

/-- `proc0` after the reaper deposited the clean exit into the channel. -/
def proc0dep : Proc :=
  { proc0 with exitCh := { buf := [none], closed := false }, pending := none }

/-- `proc0dep` after a first `Wait` drained the channel (still open). -/
def proc0drained : Proc :=
  { proc0 with exitCh := { buf := [], closed := false }, pending := none }

/-! ## C1 -/

/-- C1: `Stop` succeeds trivially (nil) when no process handle exists or
when the interrupt send fails with a process-done error; an interrupt-send
failure of any other kind escalates to an immediate kill-signal send, and
the signalling phase surfaces an error exactly when that kill send also
fails (its error is returned verbatim); and `Stop` invoked after a `Wait`
that observed the natural exit (so that signalling the reaped process
reports process-done) returns nil.  The first three parts are stated on the
`stop` body; the last on the exported, guarded `Stop`. -/
theorem C1_stop_trivial_and_escalation (o : StopOracle) (p p1 : Proc)
    (v : Option GoError) (w : WaitOracle) (e e2 : GoError) :
    (p.hasProcess = false → Process.stop o p = .ok (none, p)) ∧
    (o.interruptErr = some e → e.isErrProcessDone = true →
      Process.stop o p = .ok (none, p)) ∧
    (p.hasProcess = true → o.interruptErr = some e → e.isErrProcessDone = false →
      o.killSignalErr = some e2 → Process.stop o p = .ok (some e2, p)) ∧
    (w.ctxFirst = false → Process.Wait w p = .ok (v, p1) → p.onceDone = false →
      o.interruptErr = some e → e.isErrProcessDone = true →
      Process.Stop o p1 = .ok (none, { p1 with onceDone := true, onceErr := none })) := by
  refine ⟨?_, ?_, ?_, ?_⟩
  · intro hp
    simp [Process.stop, hp]
  · intro hi hd
    by_cases hp : p.hasProcess <;> simp [Process.stop, hp, hi, isProcessDone, hd]
  · intro hp hi hd hk
    simp [Process.stop, hp, hi, isProcessDone, hd, hk]
  · intro hc hw ho hi hd
    have h1 : recvExit p = some (v, p1) := by
      unfold Process.Wait at hw
      rw [if_neg (by simp [hc])] at hw
      cases hr : recvExit p with
      | none => rw [hr] at hw; exact absurd hw (by simp)
      | some vp =>
        rw [hr] at hw
        obtain ⟨v', q⟩ := vp
        simp only [Exec.ok.injEq, Prod.mk.injEq] at hw
        rw [hw.1, hw.2]
    have hfields := recvExit_fields p v p1 h1
    have ho1 : p1.onceDone = false := by rw [hfields.1, ho]
    unfold Process.Stop onceDo
    rw [if_neg (by simp [ho1])]
    by_cases hp : p1.hasProcess <;> simp [Process.stop, hp, hi, isProcessDone, hd]

/-- Witness for C1: a drained controller (`Wait` already observed the clean
exit) whose interrupt send reports process-done; `Stop` returns nil. -/
theorem C1_witness :
    Process.Stop
      { interruptErr := some errDone, killSignalErr := none, ctxFirst := false,
        killO := { killErr := none } } proc0drained =
      .ok (none, { proc0drained with onceDone := true, onceErr := none }) :=
  (C1_stop_trivial_and_escalation
      { interruptErr := some errDone, killSignalErr := none, ctxFirst := false,
        killO := { killErr := none } }
      proc0dep proc0drained none
      { ctxFirst := false, killO := { killErr := none } } errDone errDone).2.2.2
    rfl (by decide) rfl rfl rfl

/-! ## Lemmas about the exit race -/

/-- When the exit-channel arm of the select wins, `stopWait` closes the
channel and applies the recorded classifier to the received error. -/
theorem stopWait_slot (expect : Option GoError → Bool) (o : StopOracle)
    (p p1 : Proc) (err : Option GoError)
    (hc : o.ctxFirst = false) (hr : recvExit p = some (err, p1))
    (hcl : p.exitCh.closed = false) :
    Process.stopWait expect o p =
      .ok (exitVerdict expect err,
        { p1 with exitCh := { p1.exitCh with closed := true } }) := by
  have h1 : p1.exitCh.closed = false := by
    rw [(recvExit_fields p err p1 hr).2.2.2.2, hcl]
  simp [Process.stopWait, hc, hr, closeExit_open p1 h1]

/-- When `sp.Kill()` succeeds, `kill` receives from the exit channel,
closes it, and applies the kill classifier. -/
theorem kill_slot (o : KillOracle) (p p1 : Proc) (err : Option GoError)
    (hk : o.killErr = none) (hp : p.hasProcess = true)
    (hr : recvExit p = some (err, p1)) (hcl : p.exitCh.closed = false) :
    Process.kill o p =
      .ok (exitVerdict isKilled err,
        { p1 with exitCh := { p1.exitCh with closed := true } }) := by
  have h1 : p1.exitCh.closed = false := by
    rw [(recvExit_fields p err p1 hr).2.2.2.2, hcl]
  simp [Process.kill, hp, hk, hr, closeExit_open p1 h1]

/-! ## C2 -/

/-- Fixture: `proc0` with the interrupt-termination exit error deposited. -/
def procIntDep : Proc :=
  { proc0 with exitCh := { buf := [some errInt], closed := false }, pending := none }

/-- Fixture: an interrupt-only `stop` oracle whose select is won by the
exit slot. -/
def oInt : StopOracle :=
  { interruptErr := none, killSignalErr := none, ctxFirst := false,
    killO := { killErr := none } }

/-- C2: when the exit slot wins `stop`'s race, the result is nil exactly
when the deposited exit result is nil or matches the classifier of the
signal class actually sent — `isInterrupt` when only the interrupt signal
was sent, `isKilled` when the send escalated to the kill signal — and any
other non-nil exit result is returned verbatim. -/
theorem C2_stop_slot_verdict (o : StopOracle) (p p1 : Proc)
    (err : Option GoError) (e : GoError)
    (hp : p.hasProcess = true) (hc : o.ctxFirst = false)
    (hcl : p.exitCh.closed = false) (hr : recvExit p = some (err, p1)) :
    (o.interruptErr = none →
      Process.stop o p =
        .ok (exitVerdict isInterrupt err,
          { p1 with exitCh := { p1.exitCh with closed := true } })) ∧
    (o.interruptErr = some e → e.isErrProcessDone = false →
      o.killSignalErr = none →
      Process.stop o p =
        .ok (exitVerdict isKilled err,
          { p1 with exitCh := { p1.exitCh with closed := true } })) ∧
    (∀ expect : Option GoError → Bool,
      (exitVerdict expect err = none ↔ err = none ∨ expect err = true) ∧
      (¬(err = none ∨ expect err = true) → exitVerdict expect err = err)) := by
  refine ⟨?_, ?_, ?_⟩
  · intro hi
    simp [Process.stop, hp, hi, stopWait_slot isInterrupt o p p1 err hc hr hcl]
  · intro hi hd hk
    simp [Process.stop, hp, hi, isProcessDone, hd, hk,
      stopWait_slot isKilled o p p1 err hc hr hcl]
  · intro expect
    cases err with
    | none => simp [exitVerdict]
    | some g =>
      by_cases hexp : expect (some g) <;> simp [exitVerdict, hexp]

/-- Witness for C2: the deposited `"signal: interrupt"` exit error is
suppressed when only the interrupt signal was sent. -/
theorem C2_witness :
    Process.stop oInt procIntDep =
      .ok (none, { proc0drained with exitCh := { proc0drained.exitCh with closed := true } }) := by
  have h := (C2_stop_slot_verdict oInt procIntDep proc0drained (some errInt)
      errDone rfl rfl rfl (by decide)).1 rfl
  rw [h]
  decide

/-! ## C3 -/

/-- Fixture: `proc0` with the kill-termination exit error deposited. -/
def procKillDep : Proc :=
  { proc0 with exitCh := { buf := [some errKill], closed := false }, pending := none }

/-- C3: if the context arm of `stop`'s select fires first, `stop` returns
exactly `kill`'s result (so the deadline expiry is never itself the final
error); `kill` sends the kill signal, succeeds trivially when the handle is
absent or the process already gone, surfaces any other send failure, and
otherwise blocks on the exit slot with no deadline, suppressing a nil or
`"signal: killed"` exit result and returning any other exit result
verbatim. -/
theorem C3_ctx_falls_back_to_kill (o : StopOracle) (ko : KillOracle)
    (p p1 : Proc) (err : Option GoError) (e : GoError) :
    (p.hasProcess = true → o.ctxFirst = true →
      (o.interruptErr = none ∨
        (∃ e0, o.interruptErr = some e0 ∧ e0.isErrProcessDone = false ∧
          o.killSignalErr = none)) →
      Process.stop o p = Process.kill o.killO p) ∧
    (p.hasProcess = false → Process.kill ko p = .ok (none, p)) ∧
    (ko.killErr = some e → e.isErrProcessDone = true →
      Process.kill ko p = .ok (none, p)) ∧
    (p.hasProcess = true → ko.killErr = some e → e.isErrProcessDone = false →
      Process.kill ko p = .ok (some e, p)) ∧
    (ko.killErr = none → p.hasProcess = true → recvExit p = some (err, p1) →
      p.exitCh.closed = false →
      Process.kill ko p =
        .ok (exitVerdict isKilled err,
          { p1 with exitCh := { p1.exitCh with closed := true } }) ∧
      (exitVerdict isKilled err = none ↔ err = none ∨ isKilled err = true) ∧
      (¬(err = none ∨ isKilled err = true) → exitVerdict isKilled err = err)) := by
  refine ⟨?_, ?_, ?_, ?_, ?_⟩
  · intro hp hc hcase
    rcases hcase with hi | ⟨e0, hi, hd, hk⟩
    · simp [Process.stop, hp, hi, Process.stopWait, hc]
    · simp [Process.stop, hp, hi, isProcessDone, hd, hk, Process.stopWait, hc]
  · intro hp
    simp [Process.kill, hp]
  · intro hk hd
    by_cases hp : p.hasProcess <;> simp [Process.kill, hp, hk, isProcessDone, hd]
  · intro hp hk hd
    simp [Process.kill, hp, hk, isProcessDone, hd]
  · intro hk hp hr hcl
    refine ⟨kill_slot ko p p1 err hk hp hr hcl, ?_, ?_⟩
    · cases err with
      | none => simp [exitVerdict]
      | some g => by_cases hexp : isKilled (some g) <;> simp [exitVerdict, hexp]
    · intro hn
      cases err with
      | none => simp at hn
      | some g =>
        simp only [not_or] at hn
        have hg : isKilled (some g) = false := by
          cases hkg : isKilled (some g)
          · rfl
          · exact absurd hkg hn.2
        simp [exitVerdict, hg]

/-- Witness for C3: with the kill send succeeding and the
`"signal: killed"` exit error deposited, `kill` drains and closes the slot
and returns nil. -/
theorem C3_witness :
    Process.kill { killErr := none } procKillDep =
      .ok (none, { proc0drained with exitCh := { proc0drained.exitCh with closed := true } }) := by
  have h := (C3_ctx_falls_back_to_kill oInt { killErr := none } procKillDep
      proc0drained (some errKill) errDone).2.2.2.2 rfl rfl (by decide) rfl
  rw [h.1]
  decide

/-! ## C5 -/

/-- C5: `Wait` returns the deposited exit value when the exit slot is ready
(nil for a clean exit, the non-nil error for a non-zero exit), and when the
context fires first it returns `Kill`'s result — never a timeout error. -/
theorem C5_wait_returns_exit_or_kill (o : WaitOracle) (p p1 : Proc)
    (v : Option GoError) :
    (o.ctxFirst = false → recvExit p = some (v, p1) →
      Process.Wait o p = .ok (v, p1)) ∧
    (o.ctxFirst = true → Process.Wait o p = Process.Kill o.killO p) ∧
    (o.ctxFirst = false → p.exitCh.buf = [none] →
      ∃ q, Process.Wait o p = .ok (none, q)) ∧
    (o.ctxFirst = false → ∀ g : GoError, p.exitCh.buf = [some g] →
      ∃ q, Process.Wait o p = .ok (some g, q)) := by
  refine ⟨?_, ?_, ?_, ?_⟩
  · intro hc hr
    simp [Process.Wait, hc, hr]
  · intro hc
    simp [Process.Wait, hc]
  · intro hc hb
    exact ⟨{ p with exitCh := { p.exitCh with buf := [] } },
      by simp [Process.Wait, hc, recvExit, hb]⟩
  · intro hc g hb
    exact ⟨{ p with exitCh := { p.exitCh with buf := [] } },
      by simp [Process.Wait, hc, recvExit, hb]⟩

/-- Witness for C5: on a controller whose process deposited a clean exit,
`Wait` returns nil and drains the slot. -/
theorem C5_witness :
    Process.Wait { ctxFirst := false, killO := { killErr := none } } proc0dep =
      .ok (none, proc0drained) :=
  (C5_wait_returns_exit_or_kill
      { ctxFirst := false, killO := { killErr := none } } proc0dep proc0drained
      none).1 rfl (by decide)

/-! ## C7 -/

/-- Counterexample to C7 as stated: after a first `Wait` drained the exit
slot (which `Wait` leaves open), a second independent `Wait` whose context
never fires does block forever — it does not return a cached result or
nil. -/
theorem C7_counterexample :
    Process.Wait { ctxFirst := false, killO := { killErr := none } } proc0dep =
      .ok (none, proc0drained) ∧
    Process.Wait { ctxFirst := false, killO := { killErr := none } } proc0drained =
      .blocked := by
  decide

/-- C7 (amended): after `Stop` or `Kill` has drained *and closed* the slot,
a subsequent `Wait` whose context has not fired returns the slot's zero
value nil immediately rather than the true cached outcome; but after the
slot was drained by a prior `Wait` (which leaves it open and empty), a
second `Wait` blocks forever unless its context fires, in which case it
returns `Kill`'s result. -/
theorem C7_wait_after_drain (w : WaitOracle) (p : Proc) :
    (w.ctxFirst = false → p.exitCh.closed = true → p.exitCh.buf = [] →
      Process.Wait w p = .ok (none, p)) ∧
    (w.ctxFirst = false → p.exitCh.closed = false → p.exitCh.buf = [] →
      p.pending = none → Process.Wait w p = .blocked) ∧
    (w.ctxFirst = true → Process.Wait w p = Process.Kill w.killO p) := by
  refine ⟨?_, ?_, ?_⟩
  · intro hc hcl hb
    simp [Process.Wait, hc, recvExit, hb, hcl]
  · intro hc hcl hb hp
    simp [Process.Wait, hc, recvExit, hb, hcl, hp]
  · intro hc
    simp [Process.Wait, hc]

/-- Fixture: the controller state after a `Stop` drained and closed the
slot. -/
def procStopClosed : Proc :=
  { proc0drained with
    exitCh := { buf := [], closed := true },
    onceDone := true, onceErr := none }

/-- Witness for C7 (amended): `Wait` on a slot that `Stop` drained and
closed returns nil immediately. -/
theorem C7_witness :
    Process.Wait { ctxFirst := false, killO := { killErr := none } }
      procStopClosed = .ok (none, procStopClosed) :=
  (C7_wait_after_drain { ctxFirst := false, killO := { killErr := none } }
      procStopClosed).1 rfl rfl rfl

/-! ## C10 -/

/-- C10: when `Stop` or `Kill` returns nil trivially — absent process
handle, or the signal send reporting the process already done — the exit
slot (buffer, closed flag, and the reaper's pending deposit) is left
untouched, and a subsequent `Wait` still receives the reaper's true
deposited exit result. -/
theorem C10_trivial_nil_preserves_slot (o : StopOracle) (ko : KillOracle)
    (p : Proc) (e : GoError) (w : WaitOracle) (v : Option GoError) :
    (p.onceDone = false →
      (p.hasProcess = false ∨
        (o.interruptErr = some e ∧ e.isErrProcessDone = true)) →
      Process.Stop o p = .ok (none, { p with onceDone := true, onceErr := none })) ∧
    (p.onceDone = false →
      (p.hasProcess = false ∨
        (ko.killErr = some e ∧ e.isErrProcessDone = true)) →
      Process.Kill ko p = .ok (none, { p with onceDone := true, onceErr := none })) ∧
    (w.ctxFirst = false → p.exitCh.closed = false →
      (p.exitCh.buf = [v] ∨ (p.exitCh.buf = [] ∧ p.pending = some v)) →
      ∃ q, Process.Wait w { p with onceDone := true, onceErr := none } =
        .ok (v, q)) := by
  refine ⟨?_, ?_, ?_⟩
  · intro ho hcase
    rcases hcase with hp | ⟨hi, hd⟩
    · simp [Process.Stop, onceDo, ho, Process.stop, hp]
    · by_cases hp : p.hasProcess <;>
        simp [Process.Stop, onceDo, ho, Process.stop, hp, hi, isProcessDone, hd]
  · intro ho hcase
    rcases hcase with hp | ⟨hk, hd⟩
    · simp [Process.Kill, onceDo, ho, Process.kill, hp]
    · by_cases hp : p.hasProcess <;>
        simp [Process.Kill, onceDo, ho, Process.kill, hp, hk, isProcessDone, hd]
  · intro hc hcl hcase
    rcases hcase with hb | ⟨hb, hpd⟩
    · exact ⟨{ p with
          exitCh := { p.exitCh with buf := [] },
          onceDone := true, onceErr := none },
        by simp [Process.Wait, hc, recvExit, hb]⟩
    · exact ⟨{ p with pending := none, onceDone := true, onceErr := none },
        by simp [Process.Wait, hc, recvExit, hb, hcl, hpd]⟩

/-- Fixture: a controller whose process will exit with status 7 and whose
reaper has not yet deposited. -/
def procExit7 : Proc := { proc0 with pending := some (some errExit7) }

/-- Witness for C10: a trivial `Stop` (interrupt send reports process done)
on a controller with a pending non-zero exit leaves the slot intact, and
`Wait` then receives that exit error. -/
theorem C10_witness :
    Process.Stop
      { interruptErr := some errDone, killSignalErr := none, ctxFirst := false,
        killO := { killErr := none } } procExit7 =
      .ok (none, { procExit7 with onceDone := true, onceErr := none }) ∧
    ∃ q, Process.Wait { ctxFirst := false, killO := { killErr := none } }
      { procExit7 with onceDone := true, onceErr := none } =
      .ok (some errExit7, q) := by
  have h := C10_trivial_nil_preserves_slot
    { interruptErr := some errDone, killSignalErr := none, ctxFirst := false,
      killO := { killErr := none } }
    { killErr := none } procExit7 errDone
    { ctxFirst := false, killO := { killErr := none } } (some errExit7)
  exact ⟨h.1 rfl (Or.inr ⟨rfl, rfl⟩), h.2.2 rfl rfl (Or.inr ⟨rfl, rfl⟩)⟩

/-! ## C8 -/

/-- C8: `Restart` propagates a `Stop` failure without launching anything;
on success it launches a descriptor rebuilt from the original's executable
path, the arguments minus the argument-zero path duplicate, and the same
environment, standard streams, extra file handles and working directory,
returning a fresh controller with a new empty exit slot, a new reaper
deposit, and an unused idempotency guard. -/
theorem C8_restart (o : StopOracle) (so : StartOracle) (p p1 : Proc)
    (e : GoError) :
    (Process.Stop o p = .ok (some e, p1) →
      Process.Restart o so p = .ok ((none, some e), p1, 0)) ∧
    (Process.Stop o p = .ok (none, p1) → so.startErr = none →
      ∃ q, Process.Restart o so p = .ok ((some q, none), p1, 1) ∧
        q.cmd.path = p1.cmd.path ∧
        q.cmd.args = p1.cmd.path :: p1.cmd.args.drop 1 ∧
        q.cmd.env = p1.cmd.env ∧ q.cmd.stdout = p1.cmd.stdout ∧
        q.cmd.stderr = p1.cmd.stderr ∧ q.cmd.stdin = p1.cmd.stdin ∧
        q.cmd.extraFiles = p1.cmd.extraFiles ∧ q.cmd.dir = p1.cmd.dir ∧
        q.hasProcess = true ∧ q.exitCh = { buf := [], closed := false } ∧
        q.pending = some so.exitResult ∧
        q.onceDone = false ∧ q.onceErr = none) := by
  constructor
  · intro hs
    simp [Process.Restart, hs]
  · intro hs hst
    refine ⟨{ newProcess
        { execCommand p1.cmd.path (p1.cmd.args.drop 1) with
          env := p1.cmd.env, stdout := p1.cmd.stdout, stderr := p1.cmd.stderr,
          stdin := p1.cmd.stdin, extraFiles := p1.cmd.extraFiles,
          dir := p1.cmd.dir } with
        hasProcess := true, pending := some so.exitResult }, ?_, ?_⟩
    · simp [Process.Restart, hs, Cmd.Start, hst]
    · simp [execCommand, newProcess]

/-- Witness for C8: restarting a never-started controller (trivial `Stop`)
relaunches `cmd0` and yields a fresh controller. -/
theorem C8_witness :
    ∃ q, Process.Restart oInt { startErr := none, exitResult := none }
        (newProcess cmd0) =
      .ok ((some q, none), { newProcess cmd0 with onceDone := true, onceErr := none }, 1) ∧
      q.cmd.path = cmd0.path ∧
      q.cmd.args = cmd0.path :: cmd0.args.drop 1 ∧
      q.onceDone = false := by
  have h := (C8_restart oInt { startErr := none, exitResult := none }
      (newProcess cmd0) { newProcess cmd0 with onceDone := true, onceErr := none }
      errDone).2 (by decide) rfl
  obtain ⟨q, h1, h2⟩ := h
  exact ⟨q, h1, h2.1, h2.2.1, h2.2.2.2.2.2.2.2.2.2.2.2.1⟩

/-! ## Reachability invariant for the exit channel -/

/-- Channel-side invariant: the buffer respects capacity one, the single
reaper deposit is never duplicated into the buffer, and a closed channel is
empty with no deposit outstanding. -/
def ChanInv (p : Proc) : Prop :=
  p.exitCh.buf.length ≤ 1 ∧
  (p.exitCh.buf ≠ [] → p.pending = none) ∧
  (p.exitCh.closed = true → p.pending = none ∧ p.exitCh.buf = [])

/-- Full invariant on reachable controller states: the channel invariant
plus the fact that only the guarded `stop`/`kill` bodies close the channel,
so a closed channel means the guard has completed. -/
def ProcInv (p : Proc) : Prop :=
  ChanInv p ∧ (p.exitCh.closed = true → p.onceDone = true)

/-- A successful receive from a channel satisfying the invariant leaves an
empty buffer and no outstanding deposit, and preserves the invariant. -/
theorem recvExit_chanInv (p : Proc) (err : Option GoError) (p1 : Proc)
    (hC : ChanInv p) (h : recvExit p = some (err, p1)) :
    ChanInv p1 ∧ p1.exitCh.buf = [] ∧ p1.pending = none := by
  obtain ⟨h1, h2, h3⟩ := hC
  unfold recvExit at h
  split at h
  case h_1 v rest heq =>
    simp only [Option.some.injEq, Prod.mk.injEq] at h
    obtain ⟨-, rfl⟩ := h
    have hrest : rest = [] := by
      rw [heq] at h1
      simpa using h1
    have hpend : p.pending = none := h2 (by rw [heq]; simp)
    subst hrest
    exact ⟨⟨by simp, by simp, fun _ => ⟨hpend, rfl⟩⟩, rfl, hpend⟩
  case h_2 heq =>
    split at h
    case isTrue hcl =>
      simp only [Option.some.injEq, Prod.mk.injEq] at h
      obtain ⟨-, rfl⟩ := h
      obtain ⟨hp0, hb0⟩ := h3 hcl
      exact ⟨⟨h1, h2, h3⟩, hb0, hp0⟩
    case isFalse hcl =>
      split at h
      case h_1 v hpd =>
        simp only [Option.some.injEq, Prod.mk.injEq] at h
        obtain ⟨-, rfl⟩ := h
        refine ⟨⟨by simp [heq], by simp [heq], fun hc => ⟨rfl, by simp [heq]⟩⟩,
          by simp [heq], rfl⟩
      case h_2 => simp at h

/-- The `kill` body never panics on an open channel satisfying the channel
invariant, and preserves the channel invariant. -/
theorem kill_body_chanInv (ko : KillOracle) (p : Proc) (hC : ChanInv p)
    (hcl : p.exitCh.closed = false) :
    Process.kill ko p ≠ .panicked ∧
    ∀ e p1, Process.kill ko p = .ok (e, p1) → ChanInv p1 := by
  unfold Process.kill
  split
  · refine ⟨by simp, ?_⟩
    intro e p1 h
    simp only [Exec.ok.injEq, Prod.mk.injEq] at h
    rw [← h.2]
    exact hC
  · split
    · split
      · refine ⟨by simp, ?_⟩
        intro e p1 h
        simp only [Exec.ok.injEq, Prod.mk.injEq] at h
        rw [← h.2]
        exact hC
      · refine ⟨by simp, ?_⟩
        intro e p1 h
        simp only [Exec.ok.injEq, Prod.mk.injEq] at h
        rw [← h.2]
        exact hC
    · split
      · exact ⟨by simp, by intro e p1 h; simp at h⟩
      · case h_2 err q hr =>
        have hq := recvExit_chanInv p err q hC hr
        have hqcl : q.exitCh.closed = false := by
          rw [(recvExit_fields p err q hr).2.2.2.2]
          exact hcl
        rw [closeExit_open q hqcl]
        refine ⟨by simp, ?_⟩
        intro e p1 h
        simp only [Exec.ok.injEq, Prod.mk.injEq] at h
        rw [← h.2]
        refine ⟨by simp [hq.2.1], by simp [hq.2.1], fun _ => ⟨hq.2.2, by simp [hq.2.1]⟩⟩

/-- The select tail of `stop` never panics on an open channel satisfying
the channel invariant, and preserves it. -/
theorem stopWait_chanInv (expect : Option GoError → Bool) (o : StopOracle)
    (p : Proc) (hC : ChanInv p) (hcl : p.exitCh.closed = false) :
    Process.stopWait expect o p ≠ .panicked ∧
    ∀ e p1, Process.stopWait expect o p = .ok (e, p1) → ChanInv p1 := by
  unfold Process.stopWait
  split
  · exact kill_body_chanInv o.killO p hC hcl
  · split
    · exact ⟨by simp, by intro e p1 h; simp at h⟩
    · case h_2 err q hr =>
      have hq := recvExit_chanInv p err q hC hr
      have hqcl : q.exitCh.closed = false := by
        rw [(recvExit_fields p err q hr).2.2.2.2]
        exact hcl
      rw [closeExit_open q hqcl]
      refine ⟨by simp, ?_⟩
      intro e p1 h
      simp only [Exec.ok.injEq, Prod.mk.injEq] at h
      rw [← h.2]
      refine ⟨by simp [hq.2.1], by simp [hq.2.1], fun _ => ⟨hq.2.2, by simp [hq.2.1]⟩⟩

/-- The `stop` body never panics on an open channel satisfying the channel
invariant, and preserves it. -/
theorem stop_body_chanInv (o : StopOracle) (p : Proc) (hC : ChanInv p)
    (hcl : p.exitCh.closed = false) :
    Process.stop o p ≠ .panicked ∧
    ∀ e p1, Process.stop o p = .ok (e, p1) → ChanInv p1 := by
  unfold Process.stop
  split
  · refine ⟨by simp, ?_⟩
    intro e p1 h
    simp only [Exec.ok.injEq, Prod.mk.injEq] at h
    rw [← h.2]
    exact hC
  · split
    · split
      · refine ⟨by simp, ?_⟩
        intro e p1 h
        simp only [Exec.ok.injEq, Prod.mk.injEq] at h
        rw [← h.2]
        exact hC
      · split
        · refine ⟨by simp, ?_⟩
          intro e p1 h
          simp only [Exec.ok.injEq, Prod.mk.injEq] at h
          rw [← h.2]
          exact hC
        · exact stopWait_chanInv isKilled o p hC hcl
    · exact stopWait_chanInv isInterrupt o p hC hcl

/-- Lifting a body that preserves the channel invariant through the once
guard: a guarded call never panics on an invariant state, and the result
state satisfies the full invariant. -/
theorem onceDo_inv (body : Proc → Exec (Option GoError × Proc)) (p : Proc)
    (hI : ProcInv p)
    (hbody : p.onceDone = false →
      body p ≠ .panicked ∧ ∀ e p1, body p = .ok (e, p1) → ChanInv p1) :
    onceDo body p ≠ .panicked ∧
    ∀ e p1, onceDo body p = .ok (e, p1) → ProcInv p1 := by
  unfold onceDo
  by_cases ho : p.onceDone
  · rw [if_pos ho]
    refine ⟨by simp, ?_⟩
    intro e p1 h
    simp only [Exec.ok.injEq, Prod.mk.injEq] at h
    rw [← h.2]
    exact hI
  · rw [if_neg ho]
    have hb := hbody (by simpa using ho)
    cases hbp : body p with
    | ok a =>
      obtain ⟨e0, q⟩ := a
      have hq : ChanInv q := hb.2 e0 q hbp
      refine ⟨by simp, ?_⟩
      intro e p1 h
      simp only [Exec.ok.injEq, Prod.mk.injEq] at h
      rw [← h.2]
      exact ⟨hq, fun _ => rfl⟩
    | blocked => simp
    | panicked => exact absurd hbp (by simpa using hb.1)

/-- If the once guard has not yet run, the channel is still open. -/
theorem open_of_not_onceDone (p : Proc) (hI : ProcInv p)
    (ho : p.onceDone = false) : p.exitCh.closed = false := by
  cases hcl : p.exitCh.closed
  · rfl
  · rw [hI.2 hcl] at ho
    simp at ho

/-- The reaper's deposit on an invariant state always completes: the
capacity-one buffer is empty and the channel open whenever the deposit is
still outstanding. -/
theorem reaperDeposit_ok (p : Proc) (hI : ProcInv p) :
    reaperDeposit p ≠ .blocked ∧ reaperDeposit p ≠ .panicked ∧
    ∀ p1, reaperDeposit p = .ok p1 → ProcInv p1 := by
  obtain ⟨⟨h1, h2, h3⟩, h4⟩ := hI
  unfold reaperDeposit
  split
  case h_1 hpd =>
    refine ⟨by simp, by simp, ?_⟩
    intro p1 h
    simp only [Exec.ok.injEq] at h
    rw [← h]
    exact ⟨⟨h1, h2, h3⟩, h4⟩
  case h_2 v hpd =>
    have hcl : p.exitCh.closed = false := by
      cases hc : p.exitCh.closed
      · rfl
      · rw [(h3 hc).1] at hpd
        simp at hpd
    have hb : p.exitCh.buf = [] := by
      cases hbf : p.exitCh.buf with
      | nil => rfl
      | cons x xs =>
        rw [h2 (by rw [hbf]; simp)] at hpd
        simp at hpd
    rw [if_neg (by simp [hcl]), if_neg (by simp [hb])]
    refine ⟨by simp, by simp, ?_⟩
    intro p1 h
    simp only [Exec.ok.injEq] at h
    rw [← h]
    exact ⟨⟨by simp, by simp, by simp [hcl]⟩, by simp [hcl]⟩

/-- Every operation on an invariant state completes without panicking or
re-establishes the invariant. -/
theorem runOp_inv (op : Op) (p : Proc) (hI : ProcInv p) :
    runOp op p ≠ .panicked ∧
    ∀ e p1, runOp op p = .ok (e, p1) → ProcInv p1 := by
  cases op with
  | stop o =>
    exact onceDo_inv (Process.stop o) p hI fun ho =>
      stop_body_chanInv o p hI.1 (open_of_not_onceDone p hI ho)
  | kill ko =>
    exact onceDo_inv (Process.kill ko) p hI fun ho =>
      kill_body_chanInv ko p hI.1 (open_of_not_onceDone p hI ho)
  | wait w =>
    simp only [runOp]
    unfold Process.Wait
    split
    · exact onceDo_inv (Process.kill w.killO) p hI fun ho =>
        kill_body_chanInv w.killO p hI.1 (open_of_not_onceDone p hI ho)
    · split
      · exact ⟨by simp, by intro e p1 h; simp at h⟩
      · case h_2 err q hr =>
        have hq := recvExit_chanInv p err q hI.1 hr
        have hfields := recvExit_fields p err q hr
        refine ⟨by simp, ?_⟩
        intro e p1 h
        simp only [Exec.ok.injEq, Prod.mk.injEq] at h
        rw [← h.2]
        exact ⟨hq.1, fun hc => by
          rw [hfields.1]
          exact hI.2 (by rw [← hfields.2.2.2.2]; exact hc)⟩
  | deposit =>
    have hd := reaperDeposit_ok p hI
    simp only [runOp]
    split
    case h_1 q hdp =>
      refine ⟨by simp, ?_⟩
      intro e p1 h
      simp only [Exec.ok.injEq, Prod.mk.injEq] at h
      rw [← h.2]
      exact hd.2.2 q hdp
    case h_2 hdp => exact absurd hdp hd.1
    case h_3 hdp => exact absurd hdp hd.2.1

/-- A trace of operations from an invariant state never panics, and every
completed trace ends in an invariant state. -/
theorem runOps_inv (ops : List Op) (p : Proc) (hI : ProcInv p) :
    runOps ops p ≠ .panicked ∧ ∀ p1, runOps ops p = .ok p1 → ProcInv p1 := by
  induction ops generalizing p with
  | nil =>
    refine ⟨by simp [runOps], ?_⟩
    intro p1 h
    simp only [runOps, Exec.ok.injEq] at h
    rw [← h]
    exact hI
  | cons op rest ih =>
    unfold runOps
    cases hop : runOp op p with
    | ok a =>
      obtain ⟨e, q⟩ := a
      exact ih q ((runOp_inv op p hI).2 e q hop)
    | blocked => simp
    | panicked => exact absurd hop (runOp_inv op p hI).1

/-! ## Event counting over traces -/

/-- 1 while the reaper's single deposit is still outstanding. -/
def pendingFlag (p : Proc) : Nat := if p.pending.isSome then 1 else 0

/-- 1 once the exit channel has been closed. -/
def closedFlag (p : Proc) : Nat := if p.exitCh.closed then 1 else 0

/-- Number of values delivered into the exit channel along a trace: the
reaper's outstanding deposit is consumed exactly when `pendingFlag`
drops. -/
def countWrites : List Op → Proc → Nat
  | [], _ => 0
  | op :: rest, p =>
    match runOp op p with
    | .ok (_, p1) => (pendingFlag p - pendingFlag p1) + countWrites rest p1
    | .blocked => 0
    | .panicked => 0

/-- Number of `close` events on the exit channel along a trace. -/
def countCloses : List Op → Proc → Nat
  | [], _ => 0
  | op :: rest, p =>
    match runOp op p with
    | .ok (_, p1) => (closedFlag p1 - closedFlag p) + countCloses rest p1
    | .blocked => 0
    | .panicked => 0

/-- Whether an operation enters the guarded termination body: `Stop` and
`Kill` do when the guard has not run, and `Wait` does when its context
fires (it then calls `Kill`). -/
def entersBody : Op → Proc → Bool
  | .stop _, p => !p.onceDone
  | .kill _, p => !p.onceDone
  | .wait w, p => w.ctxFirst && !p.onceDone
  | .deposit, _ => false

/-- Number of executions of the guarded termination body along a trace. -/
def bodyRuns : List Op → Proc → Nat
  | [], _ => 0
  | op :: rest, p =>
    (if entersBody op p then 1 else 0) +
    match runOp op p with
    | .ok (_, p1) => bodyRuns rest p1
    | .blocked => 0
    | .panicked => 0

/-- A successful receive never raises the pending flag and preserves the
closed flag and guard. -/
theorem recvExit_flags (p : Proc) (err : Option GoError) (p1 : Proc)
    (h : recvExit p = some (err, p1)) :
    pendingFlag p1 ≤ pendingFlag p ∧ p1.exitCh.closed = p.exitCh.closed ∧
    p1.onceDone = p.onceDone := by
  unfold recvExit at h
  split at h
  · simp only [Option.some.injEq, Prod.mk.injEq] at h
    obtain ⟨-, rfl⟩ := h
    exact ⟨le_refl _, rfl, rfl⟩
  · split at h
    · simp only [Option.some.injEq, Prod.mk.injEq] at h
      obtain ⟨-, rfl⟩ := h
      exact ⟨le_refl _, rfl, rfl⟩
    · split at h
      · simp only [Option.some.injEq, Prod.mk.injEq] at h
        obtain ⟨-, rfl⟩ := h
        exact ⟨by simp [pendingFlag], rfl, rfl⟩
      · simp at h

/-- The `kill` body can only consume the deposit and close the channel,
and never touches the guard fields itself. -/
theorem kill_flags (ko : KillOracle) (p : Proc) (e : Option GoError)
    (p1 : Proc) (h : Process.kill ko p = .ok (e, p1)) :
    pendingFlag p1 ≤ pendingFlag p ∧ closedFlag p ≤ closedFlag p1 ∧
    p1.onceDone = p.onceDone ∧ p1.onceErr = p.onceErr := by
  unfold Process.kill at h
  split at h
  · simp only [Exec.ok.injEq, Prod.mk.injEq] at h
    rw [← h.2]
    exact ⟨le_refl _, le_refl _, rfl, rfl⟩
  · split at h
    · split at h <;>
      · simp only [Exec.ok.injEq, Prod.mk.injEq] at h
        rw [← h.2]
        exact ⟨le_refl _, le_refl _, rfl, rfl⟩
    · split at h
      · simp at h
      · case h_2 err q hr =>
        split at h
        · simp at h
        · case h_2 q2 hq2 =>
          simp only [Exec.ok.injEq, Prod.mk.injEq] at h
          rw [← h.2]
          have hf := recvExit_flags p err q hr
          have hfe := recvExit_fields p err q hr
          unfold closeExit at hq2
          split at hq2
          · simp at hq2
          · simp only [Option.some.injEq] at hq2
            rw [← hq2]
            refine ⟨hf.1, by simp only [closedFlag]; split <;> simp, hf.2.2, hfe.2.1⟩

/-- The select tail of `stop` has the same frame as `kill`. -/
theorem stopWait_flags (expect : Option GoError → Bool) (o : StopOracle)
    (p : Proc) (e : Option GoError) (p1 : Proc)
    (h : Process.stopWait expect o p = .ok (e, p1)) :
    pendingFlag p1 ≤ pendingFlag p ∧ closedFlag p ≤ closedFlag p1 ∧
    p1.onceDone = p.onceDone ∧ p1.onceErr = p.onceErr := by
  unfold Process.stopWait at h
  split at h
  · exact kill_flags o.killO p e p1 h
  · split at h
    · simp at h
    · case h_2 err q hr =>
      split at h
      · simp at h
      · case h_2 q2 hq2 =>
        simp only [Exec.ok.injEq, Prod.mk.injEq] at h
        rw [← h.2]
        have hf := recvExit_flags p err q hr
        have hfe := recvExit_fields p err q hr
        unfold closeExit at hq2
        split at hq2
        · simp at hq2
        · simp only [Option.some.injEq] at hq2
          rw [← hq2]
          refine ⟨hf.1, by simp only [closedFlag]; split <;> simp, hf.2.2, hfe.2.1⟩

/-- The `stop` body has the same frame as `kill`. -/
theorem stop_flags (o : StopOracle) (p : Proc) (e : Option GoError)
    (p1 : Proc) (h : Process.stop o p = .ok (e, p1)) :
    pendingFlag p1 ≤ pendingFlag p ∧ closedFlag p ≤ closedFlag p1 ∧
    p1.onceDone = p.onceDone ∧ p1.onceErr = p.onceErr := by
  unfold Process.stop at h
  split at h
  · simp only [Exec.ok.injEq, Prod.mk.injEq] at h
    rw [← h.2]
    exact ⟨le_refl _, le_refl _, rfl, rfl⟩
  · split at h
    · split at h
      · simp only [Exec.ok.injEq, Prod.mk.injEq] at h
        rw [← h.2]
        exact ⟨le_refl _, le_refl _, rfl, rfl⟩
      · split at h
        · simp only [Exec.ok.injEq, Prod.mk.injEq] at h
          rw [← h.2]
          exact ⟨le_refl _, le_refl _, rfl, rfl⟩
        · exact stopWait_flags isKilled o p e p1 h
    · exact stopWait_flags isInterrupt o p e p1 h

/-- The once guard lifts the body frame: a completed guarded call never
raises the pending flag or unsets the closed flag, and leaves the guard
marked done. -/
theorem onceDo_flags (body : Proc → Exec (Option GoError × Proc)) (p : Proc)
    (e : Option GoError) (p1 : Proc)
    (hbody : ∀ e2 p2, body p = .ok (e2, p2) →
      pendingFlag p2 ≤ pendingFlag p ∧ closedFlag p ≤ closedFlag p2 ∧
      p2.onceDone = p.onceDone ∧ p2.onceErr = p.onceErr)
    (h : onceDo body p = .ok (e, p1)) :
    pendingFlag p1 ≤ pendingFlag p ∧ closedFlag p ≤ closedFlag p1 ∧
    p1.onceDone = true := by
  unfold onceDo at h
  split at h
  case isTrue ho =>
    simp only [Exec.ok.injEq, Prod.mk.injEq] at h
    rw [← h.2]
    exact ⟨le_refl _, le_refl _, ho⟩
  case isFalse ho =>
    split at h
    case h_1 a e0 q hbp =>
      have hf := hbody e0 q hbp
      simp only [Exec.ok.injEq, Prod.mk.injEq] at h
      rw [← h.2]
      exact ⟨hf.1, hf.2.1, rfl⟩
    case h_2 => simp at h
    case h_3 => simp at h

/-- Any completed operation: the pending flag never rises, the closed flag
never falls, and the guard flag afterwards is the old one joined with
whether the operation entered the guarded body. -/
theorem runOp_flags (op : Op) (p : Proc) (e : Option GoError) (p1 : Proc)
    (h : runOp op p = .ok (e, p1)) :
    pendingFlag p1 ≤ pendingFlag p ∧ closedFlag p ≤ closedFlag p1 ∧
    p1.onceDone = (p.onceDone || entersBody op p) := by
  cases op with
  | stop o =>
    have hf := onceDo_flags (Process.stop o) p e p1
      (fun e2 p2 hb => stop_flags o p e2 p2 hb) h
    exact ⟨hf.1, hf.2.1, by rw [hf.2.2]; simp [entersBody]⟩
  | kill ko =>
    have hf := onceDo_flags (Process.kill ko) p e p1
      (fun e2 p2 hb => kill_flags ko p e2 p2 hb) h
    exact ⟨hf.1, hf.2.1, by rw [hf.2.2]; simp [entersBody]⟩
  | wait w =>
    simp only [runOp] at h
    unfold Process.Wait at h
    split at h
    case isTrue hc =>
      have hf := onceDo_flags (Process.kill w.killO) p e p1
        (fun e2 p2 hb => kill_flags w.killO p e2 p2 hb) h
      exact ⟨hf.1, hf.2.1, by rw [hf.2.2]; simp [entersBody, hc]⟩
    case isFalse hc =>
      split at h
      · simp at h
      · case h_2 err q hr =>
        simp only [Exec.ok.injEq, Prod.mk.injEq] at h
        rw [← h.2]
        have hf := recvExit_flags p err q hr
        have hcf : w.ctxFirst = false := by
          cases hcc : w.ctxFirst
          · rfl
          · exact absurd hcc hc
        exact ⟨hf.1, by rw [closedFlag, closedFlag, hf.2.1], by
          rw [hf.2.2]; simp [entersBody, hcf]⟩
  | deposit =>
    simp only [runOp] at h
    split at h
    case h_1 q hdp =>
      simp only [Exec.ok.injEq, Prod.mk.injEq] at h
      rw [← h.2]
      unfold reaperDeposit at hdp
      split at hdp
      case h_1 hpd =>
        simp only [Exec.ok.injEq] at hdp
        rw [← hdp]
        exact ⟨le_refl _, le_refl _, by simp [entersBody]⟩
      case h_2 v hpd =>
        split at hdp
        · simp at hdp
        · split at hdp
          · simp at hdp
          · simp only [Exec.ok.injEq] at hdp
            rw [← hdp]
            exact ⟨by simp [pendingFlag], le_refl _, by simp [entersBody]⟩
    case h_2 => simp at h
    case h_3 => simp at h

/-- Along any trace, at most the one outstanding reaper deposit is ever
written into the exit channel. -/
theorem countWrites_le (ops : List Op) (p : Proc) :
    countWrites ops p ≤ pendingFlag p := by
  induction ops generalizing p with
  | nil => simp [countWrites]
  | cons op rest ih =>
    unfold countWrites
    split
    case h_1 a e p1 hop =>
      have hm := (runOp_flags op p e p1 hop).1
      have hr := ih p1
      omega
    case h_2 => simp
    case h_3 => simp

/-- The pending flag is at most one. -/
theorem pendingFlag_le_one (p : Proc) : pendingFlag p ≤ 1 := by
  unfold pendingFlag
  split <;> simp

/-- The closed flag is at most one. -/
theorem closedFlag_le_one (p : Proc) : closedFlag p ≤ 1 := by
  unfold closedFlag
  split <;> simp

/-- Along any trace, the exit channel is closed at most once. -/
theorem countCloses_le (ops : List Op) (p : Proc) :
    countCloses ops p + closedFlag p ≤ 1 := by
  induction ops generalizing p with
  | nil => simpa [countCloses] using closedFlag_le_one p
  | cons op rest ih =>
    unfold countCloses
    split
    case h_1 a e p1 hop =>
      have hm := (runOp_flags op p e p1 hop).2.1
      have hr := ih p1
      have h1 := closedFlag_le_one p1
      omega
    case h_2 => simpa using closedFlag_le_one p
    case h_3 => simpa using closedFlag_le_one p

/-- Once the guard has run, no operation enters the body. -/
theorem entersBody_of_onceDone (op : Op) (p : Proc) (h : p.onceDone = true) :
    entersBody op p = false := by
  cases op <;> simp [entersBody, h]

/-- After the guard has run, no trace executes the body again. -/
theorem bodyRuns_of_onceDone (ops : List Op) (p : Proc)
    (h : p.onceDone = true) : bodyRuns ops p = 0 := by
  induction ops generalizing p with
  | nil => rfl
  | cons op rest ih =>
    unfold bodyRuns
    rw [entersBody_of_onceDone op p h, if_neg (by simp)]
    split
    case h_1 a e p1 hop =>
      have hd := (runOp_flags op p e p1 hop).2.2
      simp [ih p1 (by rw [hd, h]; rfl)]
    case h_2 => rfl
    case h_3 => rfl

/-- Along any trace, the guarded termination body executes at most once. -/
theorem bodyRuns_le_one (ops : List Op) (p : Proc) : bodyRuns ops p ≤ 1 := by
  induction ops generalizing p with
  | nil => simp [bodyRuns]
  | cons op rest ih =>
    unfold bodyRuns
    by_cases hE : entersBody op p
    · rw [if_pos hE]
      split
      next a e p1 hop =>
        have hd := (runOp_flags op p e p1 hop).2.2
        rw [bodyRuns_of_onceDone rest p1 (by rw [hd, hE]; simp)]
      next => simp
      next => simp
    · rw [if_neg hE]
      split
      next a e p1 hop => simpa using ih p1
      next => simp
      next => simp

/-! ## C4 -/

/-- C4: across any sequence of `Stop`/`Kill`/`Wait`/reaper operations the
shared once guard lets the termination body (the interrupt-then-kill logic
of `Stop`, or the kill logic of `Kill`, also entered by `Wait` on context
expiry) execute at most once; a completed first execution records its
outcome in the guard, and every later `Stop` or `Kill` invocation returns
that recorded outcome with the state untouched. -/
theorem C4_termination_body_once (ops : List Op) (p p1 : Proc)
    (o : StopOracle) (ko : KillOracle) (e : Option GoError) :
    bodyRuns ops p ≤ 1 ∧
    (p.onceDone = true →
      Process.Stop o p = .ok (p.onceErr, p) ∧
      Process.Kill ko p = .ok (p.onceErr, p)) ∧
    (Process.Stop o p = .ok (e, p1) → p1.onceDone = true ∧ p1.onceErr = e) ∧
    (Process.Kill ko p = .ok (e, p1) → p1.onceDone = true ∧ p1.onceErr = e) := by
  refine ⟨bodyRuns_le_one ops p, ?_, ?_, ?_⟩
  · intro ho
    constructor <;> simp [Process.Stop, Process.Kill, onceDo, ho]
  · intro h
    unfold Process.Stop onceDo at h
    split at h
    case isTrue ho =>
      simp only [Exec.ok.injEq, Prod.mk.injEq] at h
      rw [← h.2]
      exact ⟨ho, h.1⟩
    case isFalse ho =>
      split at h
      case h_1 a e0 q hbp =>
        simp only [Exec.ok.injEq, Prod.mk.injEq] at h
        rw [← h.2]
        exact ⟨rfl, h.1⟩
      case h_2 => simp at h
      case h_3 => simp at h
  · intro h
    unfold Process.Kill onceDo at h
    split at h
    case isTrue ho =>
      simp only [Exec.ok.injEq, Prod.mk.injEq] at h
      rw [← h.2]
      exact ⟨ho, h.1⟩
    case isFalse ho =>
      split at h
      case h_1 a e0 q hbp =>
        simp only [Exec.ok.injEq, Prod.mk.injEq] at h
        rw [← h.2]
        exact ⟨rfl, h.1⟩
      case h_2 => simp at h
      case h_3 => simp at h

/-- Witness for C4: on a controller whose guard already recorded nil, both
`Stop` and `Kill` return the recorded outcome without running anything. -/
theorem C4_witness :
    Process.Stop oInt procStopClosed = .ok (procStopClosed.onceErr, procStopClosed) ∧
    Process.Kill { killErr := none } procStopClosed =
      .ok (procStopClosed.onceErr, procStopClosed) :=
  (C4_termination_body_once [] procStopClosed procStopClosed oInt
    { killErr := none } none).2.1 rfl

/-! ## C6 -/

/-- The controller state `Cmd.Start` produces on a successful launch. -/
def startedProc (c : Cmd) (so : StartOracle) : Proc :=
  { cmd := c, hasProcess := true, exitCh := { buf := [], closed := false },
    pending := some so.exitResult, onceDone := false, onceErr := none }

/-- C6: a failed launch returns the error, no controller, and spawns no
background task; a successful launch returns a controller with an empty
exit slot and spawns exactly one reaper whose single deposit never blocks
(in any reachable state the capacity-one slot can absorb it), so the slot
receives at most the one value over the controller's lifetime even if
never drained. -/
theorem C6_start_spawns_single_reaper (c : Cmd) (so : StartOracle)
    (e : GoError) (ops : List Op) (q : Proc) (n : Nat) :
    (so.startErr = some e → Cmd.Start so c = (.error e, 0)) ∧
    (so.startErr = none →
      Cmd.Start so c = (.ok (startedProc c so), 1)) ∧
    (Cmd.Start so c = (.ok q, n) →
      n = 1 ∧ q.exitCh = { buf := [], closed := false } ∧
      q.pending = some so.exitResult ∧
      (∀ p1, runOps ops q = .ok p1 →
        reaperDeposit p1 ≠ .blocked ∧ reaperDeposit p1 ≠ .panicked) ∧
      countWrites ops q ≤ 1) := by
  refine ⟨?_, ?_, ?_⟩
  · intro hs
    simp [Cmd.Start, hs]
  · intro hs
    simp [Cmd.Start, hs, newProcess, startedProc]
  · intro h
    unfold Cmd.Start at h
    split at h
    case h_1 e0 hs => simp at h
    case h_2 hs =>
      simp only [Prod.mk.injEq, Except.ok.injEq] at h
      obtain ⟨hq, hn⟩ := h
      have hql : q = startedProc c so := by
        rw [← hq]
        simp [newProcess, startedProc]
      have hInv : ProcInv q := by
        rw [hql]
        exact ⟨⟨by simp [startedProc], by simp [startedProc],
          by simp [startedProc]⟩, by simp [startedProc]⟩
      refine ⟨hn.symm, by rw [hql]; rfl, by rw [hql]; rfl, ?_, ?_⟩
      · intro p1 h1
        have hI1 := (runOps_inv ops q hInv).2 p1 h1
        exact ⟨(reaperDeposit_ok p1 hI1).1, (reaperDeposit_ok p1 hI1).2.1⟩
      · calc countWrites ops q ≤ pendingFlag q := countWrites_le ops q
          _ ≤ 1 := pendingFlag_le_one q

/-- Witness for C6: starting `cmd0` succeeds, spawns one reaper, and after
a deposit-then-wait trace the deposit primitive still cannot block. -/
theorem C6_witness :
    Cmd.Start { startErr := none, exitResult := none } cmd0 = (.ok proc0, 1) ∧
    countWrites [Op.deposit,
      Op.wait { ctxFirst := false, killO := { killErr := none } }] proc0 ≤ 1 := by
  have h := C6_start_spawns_single_reaper cmd0
    { startErr := none, exitResult := none } errDone
    [Op.deposit, Op.wait { ctxFirst := false, killO := { killErr := none } }]
    proc0 1
  have h2 := h.2.1 rfl
  have h3 := (h.2.2 (by rw [h2]; rfl)).2.2.2.2
  exact ⟨by rw [h2]; rfl, h3⟩

/-! ## C9 -/

/-- C9: from any successfully started controller, no sequence of `Stop`,
`Kill`, `Wait` and reaper operations reaches a panic (a send on a closed
exit channel or a double close), the channel is written at most once, and
it is closed at most once. -/
theorem C9_channel_write_close_safety (c : Cmd) (so : StartOracle)
    (q : Proc) (n : Nat) (ops : List Op)
    (h : Cmd.Start so c = (.ok q, n)) :
    runOps ops q ≠ .panicked ∧ countWrites ops q ≤ 1 ∧
    closedFlag q = 0 ∧ countCloses ops q ≤ 1 := by
  have hql : q = startedProc c so := by
    unfold Cmd.Start at h
    split at h
    · simp at h
    · simp only [Prod.mk.injEq, Except.ok.injEq] at h
      rw [← h.1]
      simp [newProcess, startedProc]
  have hInv : ProcInv q := by
    rw [hql]
    exact ⟨⟨by simp [startedProc], by simp [startedProc],
      by simp [startedProc]⟩, by simp [startedProc]⟩
  have hcf : closedFlag q = 0 := by
    rw [hql]
    rfl
  refine ⟨(runOps_inv ops q hInv).1, ?_, hcf, ?_⟩
  · calc countWrites ops q ≤ pendingFlag q := countWrites_le ops q
      _ ≤ 1 := pendingFlag_le_one q
  · have := countCloses_le ops q
    omega

/-- Witness for C9: a concrete started controller and a trace that stops,
deposits, and waits never panics and respects the single-write,
single-close discipline. -/
theorem C9_witness :
    runOps [Op.stop oInt, Op.deposit,
      Op.wait { ctxFirst := false, killO := { killErr := none } }] proc0 ≠
      .panicked ∧
    countWrites [Op.stop oInt, Op.deposit,
      Op.wait { ctxFirst := false, killO := { killErr := none } }] proc0 ≤ 1 ∧
    closedFlag proc0 = 0 ∧
    countCloses [Op.stop oInt, Op.deposit,
      Op.wait { ctxFirst := false, killO := { killErr := none } }] proc0 ≤ 1 :=
  C9_channel_write_close_safety cmd0 { startErr := none, exitResult := none }
    proc0 1
    [Op.stop oInt, Op.deposit,
      Op.wait { ctxFirst := false, killO := { killErr := none } }] rfl
